import Mathlib

/-!
Verification of the audio-receiver core of the `arduino-esp32` LXC services:
shallow Lean embeddings of the compression engine (`compression.py`), the
monitoring/alerting engine (`monitoring.py`), the storage manager
(`storage.py`) and the receiver server accept loop (`server.py`), together
with theorems settling the specification claims about them.

Numeric conventions: Python/NumPy integers are modelled as `Int`/`Nat`;
16-bit wrap-around of NumPy `int16` arithmetic is explicit (`wrap16`);
floating-point timestamps and metric values are idealised as integers
(only their ordering matters to the claims); the real-valued quality-score
arithmetic is idealised over `ℝ`.
-/

namespace AudioReceiver

/-! ### ADPCM codec — `compression.py`, `_compress_adpcm` / `_decompress_adpcm`

The encoder walks the int16 samples keeping a running `predictor` and
adaptive `step`; each sample becomes a signed 4-bit code.  NumPy evaluates
`sample - predictor` at dtype int16, so the difference wraps modulo 2^16,
and `abs` of an int16 value is itself an int16 value (`abs(-32768) = -32768`).
`int(diff / step)` truncates the float quotient toward zero, which for these
integer ranges is exact truncating division.
-/

/-- Clamp to the int16 range, as `max(-32768, min(32767, x))`. -/
def int16Clamp (x : Int) : Int := max (-32768) (min 32767 x)

/-- Reinterpret an integer at dtype int16 (two's-complement wrap). -/
def wrap16 (x : Int) : Int := (x + 32768) % 65536 - 32768

/-- The (predictor, step) pair threaded through ADPCM encode and decode. -/
structure AdpcmState where
  predictor : Int
  step : Int
deriving DecidableEq, Repr

/-- Both encoder and decoder start from predictor 0 and step 1. -/
def adpcmInit : AdpcmState := ⟨0, 1⟩

/-- One encoder step of `_compress_adpcm`: quantise the (int16-wrapped)
difference to a 4-bit code, advance the clamped predictor, and adapt the
step from the magnitude of the *difference*. -/
def adpcmEncodeStep (st : AdpcmState) (sample : Int) : AdpcmState × Int :=
  let diff := wrap16 (sample - st.predictor)
  let code := max (-8) (min 7 (Int.tdiv diff st.step))
  let predictor := int16Clamp (st.predictor + code * st.step)
  let adiff := wrap16 |diff|
  let step :=
    if adiff > st.step * 2 then min (st.step * 2) 32768
    else if 2 * adiff < st.step then max (Int.tdiv st.step 2) 1
    else st.step
  (⟨predictor, step⟩, code)

/-- Encoder trace: the emitted code and the encoder state after each sample. -/
def adpcmEncodeList : AdpcmState → List Int → List (Int × AdpcmState)
  | _, [] => []
  | st, s :: rest =>
      let r := adpcmEncodeStep st s
      (r.2, r.1) :: adpcmEncodeList r.1 rest

/-- One decoder step of `_decompress_adpcm`, on the already sign-extended
4-bit code: reconstruct the clamped sample, and adapt the step from the
magnitude of the *code*. -/
def adpcmDecodeStep (st : AdpcmState) (code : Int) : AdpcmState × Int :=
  let sample := int16Clamp (st.predictor + code * st.step)
  let step :=
    if |code| > 2 then min (st.step * 2) 32768
    else if code = 0 then max (Int.tdiv st.step 2) 1
    else st.step
  (⟨sample, step⟩, sample)

/-- Sign extension of a 4-bit nibble: `if code >= 8: code -= 16`. -/
def nibbleToCode (n : Nat) : Int := if (n : Int) ≥ 8 then (n : Int) - 16 else n

/-- Decoder trace over a nibble stream: decoded sample and decoder state
after each code. -/
def adpcmDecodeList : AdpcmState → List Nat → List (Int × AdpcmState)
  | _, [] => []
  | st, n :: rest =>
      let r := adpcmDecodeStep st (nibbleToCode n)
      (r.2, r.1) :: adpcmDecodeList r.1 rest

/-- `code & 0x0F`: the low nibble of the (possibly negative) code. -/
def codeToNibble (c : Int) : Nat := (c % 16).toNat

/-- Pack 4-bit codes two per byte, high nibble first; a trailing odd nibble
is padded into the high half of a final byte. -/
def packNibbles : List Nat → List Nat
  | [] => []
  | [n] => [n * 16]
  | n1 :: n2 :: rest => (n1 * 16 + n2) :: packNibbles rest

/-- Unpack each byte into its high and low nibble. -/
def unpackNibbles (bytes : List Nat) : List Nat :=
  bytes.flatMap fun b => [b / 16 % 16, b % 16]

/-- `_compress_adpcm` on an int16 sample list: encode, mask each code to a
nibble, pack two nibbles per byte. -/
def compressAdpcmList (samples : List Int) : List Nat :=
  packNibbles ((adpcmEncodeList adpcmInit samples).map fun p => codeToNibble p.1)

/-- `_decompress_adpcm` restricted to the sample count `n = prod(shape)`:
unpack nibbles, keep the first `n`, and run the decoder from the initial
state. -/
def decompressAdpcmList (bytes : List Nat) (n : Nat) : List (Int × AdpcmState) :=
  adpcmDecodeList adpcmInit ((unpackNibbles bytes).take n)

/-- Does the encoder's diff-based step adaptation decide the same way as the
decoder's code-based one at this state and sample? -/
def stepCondAgree (st : AdpcmState) (sample : Int) : Bool :=
  let diff := wrap16 (sample - st.predictor)
  let adiff := wrap16 |diff|
  let code := max (-8) (min 7 (Int.tdiv diff st.step))
  decide (adiff > st.step * 2) = decide (|code| > 2) &&
    (adiff > st.step * 2 || decide (2 * adiff < st.step) = decide (code = 0))

/-- The step-adaptation decisions agree along the whole encoder trace. -/
def agreeAll : AdpcmState → List Int → Bool
  | _, [] => true
  | st, s :: rest => stepCondAgree st s && agreeAll (adpcmEncodeStep st s).1 rest

lemma adpcmEncodeStep_code_range (st : AdpcmState) (s : Int) :
    -8 ≤ (adpcmEncodeStep st s).2 ∧ (adpcmEncodeStep st s).2 ≤ 7 := by
  unfold adpcmEncodeStep
  refine ⟨le_max_left _ _, max_le (by norm_num) ?_⟩
  exact min_le_left _ _

lemma codeToNibble_lt (c : Int) : codeToNibble c < 16 := by
  unfold codeToNibble
  omega

lemma nibbleToCode_codeToNibble (c : Int) (h1 : -8 ≤ c) (h2 : c ≤ 7) :
    nibbleToCode (codeToNibble c) = c := by
  interval_cases c <;> decide

lemma unpackNibbles_packNibbles (l : List Nat) (h : ∀ n ∈ l, n < 16) :
    unpackNibbles (packNibbles l) = l ∨ unpackNibbles (packNibbles l) = l ++ [0] := by
  induction l using packNibbles.induct with
  | case1 => left; rfl
  | case2 n =>
      right
      have hn : n < 16 := h n (by simp)
      simp only [packNibbles, unpackNibbles, List.flatMap_cons, List.flatMap_nil]
      have h1 : n * 16 / 16 % 16 = n := by omega
      have h2 : n * 16 % 16 = 0 := by omega
      simp [h1, h2, hn]
  | case3 n1 n2 rest ih =>
      have hn1 : n1 < 16 := h n1 (by simp)
      have hn2 : n2 < 16 := h n2 (by simp)
      have hrest : ∀ n ∈ rest, n < 16 := fun n hn => h n (by simp [hn])
      have h1 : (n1 * 16 + n2) / 16 % 16 = n1 := by omega
      have h2 : (n1 * 16 + n2) % 16 = n2 := by omega
      rcases ih hrest with hcase | hcase <;>
        simp [packNibbles, unpackNibbles, List.flatMap_cons, h1, h2] at hcase ⊢ <;>
        simp [hcase]

lemma unpackNibbles_packNibbles_take (l : List Nat) (h : ∀ n ∈ l, n < 16) :
    (unpackNibbles (packNibbles l)).take l.length = l := by
  rcases unpackNibbles_packNibbles l h with hcase | hcase
  · rw [hcase, List.take_of_length_le le_rfl]
  · rw [hcase, List.take_left]

lemma adpcmEncodeList_length (st : AdpcmState) (l : List Int) :
    (adpcmEncodeList st l).length = l.length := by
  induction l generalizing st with
  | nil => rfl
  | cons s rest ih => simp [adpcmEncodeList, ih]

/-- When the diff-based and code-based step-update decisions agree, one
decoder step on the emitted code reproduces the encoder's new state, and the
decoded sample is the encoder's new clamped predictor. -/
lemma adpcmDecodeStep_encodeStep (st : AdpcmState) (s : Int)
    (h : stepCondAgree st s = true) :
    adpcmDecodeStep st (adpcmEncodeStep st s).2 =
      ((adpcmEncodeStep st s).1, (adpcmEncodeStep st s).1.predictor) := by
  unfold stepCondAgree at h
  simp only [Bool.and_eq_true, Bool.or_eq_true, decide_eq_true_eq,
    decide_eq_decide] at h
  obtain ⟨hgrow, hshrink⟩ := h
  unfold adpcmEncodeStep adpcmDecodeStep
  simp only [Prod.mk.injEq, AdpcmState.mk.injEq, and_true, true_and]
  rcases hshrink with hA | hCD
  · rw [if_pos (hgrow.mp hA), if_pos hA]
  · by_cases hA : wrap16 |wrap16 (s - st.predictor)| > st.step * 2
    · rw [if_pos (hgrow.mp hA), if_pos hA]
    · rw [if_neg (fun hB => hA (hgrow.mpr hB)), if_neg hA]
      by_cases hC : 2 * wrap16 |wrap16 (s - st.predictor)| < st.step
      · rw [if_pos (hCD.mp hC), if_pos hC]
      · rw [if_neg (fun hD => hC (hCD.mpr hD)), if_neg hC]

/-- Core mirror lemma: along any trace where the step adaptations agree,
decoding the encoder's codes from the same start state reproduces the
encoder's state trace, and each decoded sample is the encoder's clamped
predictor at that index. -/
lemma adpcmDecodeList_encodeList (samples : List Int) (st : AdpcmState)
    (h : agreeAll st samples = true) :
    adpcmDecodeList st ((adpcmEncodeList st samples).map fun p => codeToNibble p.1) =
      (adpcmEncodeList st samples).map fun p => (p.2.predictor, p.2) := by
  induction samples generalizing st with
  | nil => rfl
  | cons s rest ih =>
      simp only [agreeAll, Bool.and_eq_true] at h
      obtain ⟨h1, h2⟩ := h
      have hrange := adpcmEncodeStep_code_range st s
      simp only [adpcmEncodeList, List.map_cons, adpcmDecodeList,
        nibbleToCode_codeToNibble _ hrange.1 hrange.2,
        adpcmDecodeStep_encodeStep st s h1]
      rw [ih ((adpcmEncodeStep st s).1) h2]

/-- Claim C1: the decoder's internal state does NOT mirror the encoder's in
general.  On the int16 input `[3, 8, 20]` the encoder doubles its step on the
second sample (the true difference 5 exceeds `2*step = 4`) while the decoder,
seeing only the quantised code 2, does not; the decoded samples `[3, 7, 13]`
differ from the encoder's clamped predictor sequence `[3, 7, 19]` and the
state traces differ. -/
theorem adpcm_state_mirror_counterexample :
    ¬ ((decompressAdpcmList (compressAdpcmList [3, 8, 20]) 3).map (fun p => p.2) =
         (adpcmEncodeList adpcmInit [3, 8, 20]).map (fun p => p.2) ∧
       (decompressAdpcmList (compressAdpcmList [3, 8, 20]) 3).map (fun p => p.1) =
         (adpcmEncodeList adpcmInit [3, 8, 20]).map (fun p => p.2.predictor)) := by
  decide

/-- Claim C1 (amended): decoding the codes produced by the encoder, both
sides starting from predictor 0 and step 1, reproduces the encoder's
(predictor, step) trace — and hence the decoded samples equal the encoder's
clamped predictor sequence — provided the encoder's diff-based step-update
decisions coincide with the decoder's code-based ones at every index; in
general (e.g. on `[3, 8, 20]`) the two traces diverge. -/
theorem adpcm_state_mirror_amended (samples : List Int)
    (h : agreeAll adpcmInit samples = true) :
    (decompressAdpcmList (compressAdpcmList samples) samples.length).map (fun p => p.2) =
      (adpcmEncodeList adpcmInit samples).map (fun p => p.2) ∧
    (decompressAdpcmList (compressAdpcmList samples) samples.length).map (fun p => p.1) =
      (adpcmEncodeList adpcmInit samples).map (fun p => p.2.predictor) := by
  have hlen : ((adpcmEncodeList adpcmInit samples).map
      (fun p => codeToNibble p.1)).length = samples.length := by
    simp [adpcmEncodeList_length]
  have htake := unpackNibbles_packNibbles_take
    ((adpcmEncodeList adpcmInit samples).map fun p => codeToNibble p.1)
    (by intro n hn; simp only [List.mem_map] at hn
        obtain ⟨p, _, rfl⟩ := hn; exact codeToNibble_lt _)
  rw [hlen] at htake
  have hmain := adpcmDecodeList_encodeList samples adpcmInit h
  unfold decompressAdpcmList compressAdpcmList
  rw [htake, hmain]
  constructor <;> simp [List.map_map, Function.comp]

/-- Concrete instantiation of the amended C1 on `[3, 10, 9]`, where the
encoder's and decoder's step-update decisions agree at every index. -/
theorem adpcm_state_mirror_witness :
    agreeAll adpcmInit [3, 10, 9] = true ∧
    ((decompressAdpcmList (compressAdpcmList [3, 10, 9]) 3).map (fun p => p.2) =
       (adpcmEncodeList adpcmInit [3, 10, 9]).map (fun p => p.2) ∧
     (decompressAdpcmList (compressAdpcmList [3, 10, 9]) 3).map (fun p => p.1) =
       (adpcmEncodeList adpcmInit [3, 10, 9]).map (fun p => p.2.predictor)) :=
  ⟨by decide, adpcm_state_mirror_amended [3, 10, 9] (by decide)⟩

/-! ### Monitoring / alerting — `monitoring.py`, `_check_metric_alert` / `_resolve_alert`

Metric names are modelled as opaque `Nat` identifiers (`'cpu' = 0`,
`'memory' = 1`, `'disk' = 2`, `'latency' = 3`, `'buffer' = 4`,
`'quality' = 5`); float timestamps, metric values and thresholds are
idealised as integers.  The float severity multipliers `1.2` and `1.5` are
written cross-multiplied (`10*value > 12*threshold`,
`2*value > 3*threshold`).  The human-readable message string and the bound
of the `alert_history` deque are immaterial to the claims and not carried.
-/

inductive AlertLevel
  | info | warning | error | critical
deriving DecidableEq, Repr

def metricCpu : Nat := 0
def metricMemory : Nat := 1
def metricDisk : Nat := 2
def metricLatency : Nat := 3
def metricBuffer : Nat := 4
def metricQuality : Nat := 5

structure PerformanceAlert where
  level : AlertLevel
  metric : Nat
  threshold : Int
  timestamp : Int
  resolved : Bool
  resolvedTimestamp : Option Int
deriving DecidableEq, Repr

structure MonitorState where
  alerts : List PerformanceAlert
  alertHistory : List PerformanceAlert
  lastAlertTimes : List (Nat × Int)
  alertCooldown : Int
deriving DecidableEq, Repr

/-- `self.last_alert_times.get(metric_name, 0)`. -/
def lookupLastAlertTime (l : List (Nat × Int)) (k : Nat) : Int :=
  match l.find? (fun p => p.1 = k) with
  | some p => p.2
  | none => 0

/-- Severity selection of `_check_metric_alert`. -/
def alertLevelFor (metric : Nat) (value threshold : Int) : AlertLevel :=
  if metric = metricCpu ∨ metric = metricMemory ∨ metric = metricDisk then
    if 10 * value > 12 * threshold then .critical else .error
  else if metric = metricLatency ∨ metric = metricBuffer then
    if 2 * value > 3 * threshold then .error else .warning
  else .warning

/-- `_resolve_alert`: mark every unresolved alert carrying this metric name
as resolved, stamping the resolution time. -/
def resolveAlert (st : MonitorState) (metric : Nat) (now : Int) : MonitorState :=
  { st with alerts := st.alerts.map fun a =>
      if a.metric = metric ∧ a.resolved = false then
        { a with resolved := true, resolvedTimestamp := some now }
      else a }

/-- `_check_metric_alert`: evaluate the trigger condition, resolve when it is
false, otherwise raise a new alert unless within the cooldown window since
the metric's last alert. -/
def checkMetricAlert (st : MonitorState) (metric : Nat) (value threshold : Int)
    (now : Int) (lowerBetter : Bool) : MonitorState :=
  if ¬ (if lowerBetter then value < threshold else value > threshold) then
    resolveAlert st metric now
  else if now - lookupLastAlertTime st.lastAlertTimes metric < st.alertCooldown then
    st
  else
    let alert : PerformanceAlert :=
      ⟨alertLevelFor metric value threshold, metric, threshold, now, false, none⟩
    { st with
        alerts := st.alerts ++ [alert],
        alertHistory := st.alertHistory ++ [alert],
        lastAlertTimes := (metric, now) :: st.lastAlertTimes.filter (fun p => p.1 ≠ metric) }

/-- A monitor that has not yet raised any alert, with the given cooldown. -/
def monitorInit (cooldown : Int) : MonitorState := ⟨[], [], [], cooldown⟩

/-- Feed a sequence of (timestamp, value) samples for one metric through
alert evaluation. -/
def checkSequence (st : MonitorState) (metric : Nat) (threshold : Int)
    (lowerBetter : Bool) (samples : List (Int × Int)) : MonitorState :=
  samples.foldl (fun s tv => checkMetricAlert s metric tv.2 threshold tv.1 lowerBetter) st

/-- Claim C3: with the cooldown set to zero, the sequence
below–above–above–below does NOT raise exactly one alert: the cooldown test
`now - last < 0` never suppresses anything, so the second above-threshold
sample raises a second alert (both are then resolved by the final sample). -/
theorem alert_lifecycle_counterexample :
    ¬ ((checkSequence (monitorInit 0) 99 10 false
          [(100, 5), (101, 15), (102, 15), (103, 5)]).alerts.length = 1 ∧
       ((checkSequence (monitorInit 0) 99 10 false
          [(100, 5), (101, 15), (102, 15), (103, 5)]).alerts.filter
            (fun a => a.resolved)).length = 1) := by
  decide

/-- Claim C3 (amended): feeding below–above–above–below through alert
evaluation raises exactly one alert and resolves exactly one alert, the
raise (at the first above-threshold time) preceding the resolve (at the
final below-threshold time), provided the cooldown covers the gap between
the two above-threshold samples (with cooldown zero the second breach
raises a second alert). -/
theorem alert_lifecycle_amended (m : Nat) (th c t1 t2 t3 t4 v1 v2 v3 v4 : Int)
    (hv1 : v1 ≤ th) (hv2 : th < v2) (hv3 : th < v3) (hv4 : v4 ≤ th)
    (hc2 : c ≤ t2) (hc3 : t3 - t2 < c) (ht : t2 < t4) :
    (checkSequence (monitorInit c) m th false
        [(t1, v1), (t2, v2), (t3, v3), (t4, v4)]).alerts =
      [⟨alertLevelFor m v2 th, m, th, t2, true, some t4⟩] ∧ t2 < t4 := by
  refine ⟨?_, ht⟩
  have h1 : ¬ (th < v1) := not_lt.mpr hv1
  have h4 : ¬ (th < v4) := not_lt.mpr hv4
  have e1 : checkMetricAlert (monitorInit c) m v1 th t1 false = monitorInit c := by
    rw [checkMetricAlert, if_pos (by simpa using h1)]
    simp [resolveAlert, monitorInit]
  have e2 : checkMetricAlert (monitorInit c) m v2 th t2 false =
      ⟨[⟨alertLevelFor m v2 th, m, th, t2, false, none⟩],
       [⟨alertLevelFor m v2 th, m, th, t2, false, none⟩], [(m, t2)], c⟩ := by
    rw [checkMetricAlert, if_neg (by simpa using hv2),
      if_neg (by simp [monitorInit, lookupLastAlertTime]; omega)]
    simp [monitorInit]
  have e3 : checkMetricAlert
      ⟨[⟨alertLevelFor m v2 th, m, th, t2, false, none⟩],
       [⟨alertLevelFor m v2 th, m, th, t2, false, none⟩], [(m, t2)], c⟩ m v3 th t3 false =
      ⟨[⟨alertLevelFor m v2 th, m, th, t2, false, none⟩],
       [⟨alertLevelFor m v2 th, m, th, t2, false, none⟩], [(m, t2)], c⟩ := by
    rw [checkMetricAlert, if_neg (by simpa using hv3),
      if_pos (by simp [lookupLastAlertTime]; omega)]
  simp only [checkSequence, List.foldl, e1, e2, e3]
  rw [checkMetricAlert, if_pos (by simpa using h4)]
  simp [resolveAlert]

/-- Concrete instantiation of the amended C3: threshold 10, cooldown 5,
samples 5, 15, 15, 5 at times 100–103. -/
theorem alert_lifecycle_witness :
    (checkSequence (monitorInit 5) 99 10 false
        [(100, 5), (101, 15), (102, 15), (103, 5)]).alerts =
      [⟨alertLevelFor 99 15 10, 99, 10, 101, true, some 103⟩] ∧ (101 : Int) < 103 :=
  alert_lifecycle_amended 99 10 5 100 101 102 103 5 15 15 5
    (by decide) (by decide) (by decide) (by decide) (by decide) (by decide) (by decide)

/-- Claim C10: after an evaluation step whose trigger condition is false,
every alert for that metric is resolved — resolution rewrites each
unresolved alert with that metric name (stamping the resolution time), not
only the most recently raised one. -/
theorem alert_resolution_resolves_all (st : MonitorState) (m : Nat)
    (value th now : Int) (lb : Bool)
    (h : ¬ (if lb then value < th else value > th)) :
    (checkMetricAlert st m value th now lb).alerts =
      st.alerts.map (fun a =>
        if a.metric = m ∧ a.resolved = false then
          { a with resolved := true, resolvedTimestamp := some now }
        else a) ∧
    ∀ a ∈ (checkMetricAlert st m value th now lb).alerts,
      a.metric = m → a.resolved = true := by
  rw [checkMetricAlert, if_pos h]
  refine ⟨rfl, ?_⟩
  intro a ha ham
  simp only [resolveAlert, List.mem_map] at ha
  obtain ⟨b, _, rfl⟩ := ha
  by_cases hb : b.metric = m ∧ b.resolved = false
  · simp [hb]
  · rw [if_neg hb]
    rw [if_neg hb] at ham
    rcases Bool.eq_false_or_eq_true b.resolved with htrue | hfalse
    · exact htrue
    · exact absurd ⟨ham, hfalse⟩ hb

/-- Concrete instantiation of C10: two unresolved alerts for metric 7 both
become resolved after one below-threshold evaluation. -/
theorem alert_resolution_resolves_all_witness :
    (checkMetricAlert
        ⟨[⟨.warning, 7, 10, 50, false, none⟩, ⟨.warning, 7, 10, 60, false, none⟩],
         [], [(7, 60)], 60⟩ 7 5 10 70 false).alerts =
      [⟨.warning, 7, 10, 50, true, some 70⟩, ⟨.warning, 7, 10, 60, true, some 70⟩] ∧
    ∀ a ∈ (checkMetricAlert
        ⟨[⟨.warning, 7, 10, 50, false, none⟩, ⟨.warning, 7, 10, 60, false, none⟩],
         [], [(7, 60)], 60⟩ 7 5 10 70 false).alerts,
      a.metric = 7 → a.resolved = true := by
  have h := alert_resolution_resolves_all
    ⟨[⟨.warning, 7, 10, 50, false, none⟩, ⟨.warning, 7, 10, 60, false, none⟩],
     [], [(7, 60)], 60⟩ 7 5 10 70 false (by decide)
  exact ⟨by rw [h.1]; decide, h.2⟩

/-! ### Receiver server accept loop — `server.py`, `_accept_loop`

Device identities (fresh UUIDs) are modelled as opaque `Nat`s; the
connection registry `self.connections` is the list of registered device ids.
An arriving connection either is rejected (socket closed, `continue`) when
the registry size is at or above `max_connections`, or is registered, after
which `total_connections` is incremented and `active_connections` is set to
the new registry size.
-/

structure ServerState where
  connections : List Nat
  totalConnections : Nat
  activeConnections : Nat
  maxConnections : Nat
deriving DecidableEq, Repr

/-- One iteration of `_accept_loop` after `accept` returns, for a fresh
device id; the Bool records whether the connection was registered. -/
def acceptConnection (st : ServerState) (newId : Nat) : ServerState × Bool :=
  if st.connections.length ≥ st.maxConnections then
    (st, false)
  else
    ({ st with
        connections := st.connections ++ [newId],
        totalConnections := st.totalConnections + 1,
        activeConnections := (st.connections ++ [newId]).length }, true)

/-- Claim C8: at or above the configured maximum, an arriving connection is
dropped — the registry and both connection counters are left exactly as they
were and the new id is never registered; below the maximum it is registered,
with the total count incremented and the active count equal to the new
registry size. -/
theorem connection_limit_enforced (st : ServerState) (newId : Nat)
    (hfresh : newId ∉ st.connections) :
    (st.connections.length ≥ st.maxConnections →
      acceptConnection st newId = (st, false) ∧
      newId ∉ (acceptConnection st newId).1.connections ∧
      (acceptConnection st newId).1.totalConnections = st.totalConnections ∧
      (acceptConnection st newId).1.activeConnections = st.activeConnections) ∧
    (st.connections.length < st.maxConnections →
      (acceptConnection st newId).1.connections = st.connections ++ [newId] ∧
      (acceptConnection st newId).1.totalConnections = st.totalConnections + 1 ∧
      (acceptConnection st newId).1.activeConnections = st.connections.length + 1 ∧
      (acceptConnection st newId).2 = true) := by
  constructor
  · intro hge
    rw [acceptConnection, if_pos hge]
    exact ⟨rfl, hfresh, rfl, rfl⟩
  · intro hlt
    rw [acceptConnection, if_neg (not_le.mpr hlt)]
    exact ⟨rfl, rfl, by simp, rfl⟩

/-- Concrete instantiation of C8: with `max_connections = 2`, a third
attempt is dropped with all counts unchanged, while from one registered
connection a second is accepted. -/
theorem connection_limit_enforced_witness :
    ((2 : Nat) ∉ ([0, 1] : List Nat)) ∧
    (acceptConnection ⟨[0, 1], 2, 2, 2⟩ 2 = (⟨[0, 1], 2, 2, 2⟩, false) ∧
      (2 : Nat) ∉ (acceptConnection ⟨[0, 1], 2, 2, 2⟩ 2).1.connections ∧
      (acceptConnection ⟨[0, 1], 2, 2, 2⟩ 2).1.totalConnections = 2 ∧
      (acceptConnection ⟨[0, 1], 2, 2, 2⟩ 2).1.activeConnections = 2) ∧
    ((acceptConnection ⟨[0], 1, 1, 2⟩ 9).1.connections = [0, 9] ∧
      (acceptConnection ⟨[0], 1, 1, 2⟩ 9).1.totalConnections = 2 ∧
      (acceptConnection ⟨[0], 1, 1, 2⟩ 9).1.activeConnections = 2 ∧
      (acceptConnection ⟨[0], 1, 1, 2⟩ 9).2 = true) :=
  ⟨by decide,
   (connection_limit_enforced ⟨[0, 1], 2, 2, 2⟩ 2 (by decide)).1 (by decide),
   (connection_limit_enforced ⟨[0], 1, 1, 2⟩ 9 (by decide)).2 (by decide)⟩

/-! ### Storage manager active-segment state — `storage.py`

`active_segments` and `segment_writers` are dicts keyed by device id,
modelled as association lists with unique keys; device/segment ids are
opaque `Nat`s, wall-clock times are integers.  `writer.open()` can fail
(modelled by the `openOk` flag); `writer.write_chunk` returns `False` when
the writer is not open.  External effects (actual file bytes,
`os.path.getsize`, event-bus delivery) are not modelled beyond the order of
the segment started/completed notifications.
-/

structure StoredSegment where
  segmentId : Nat
  deviceId : Nat
  startTime : Int
  endTime : Option Int
  durationSeconds : Int
  fileSizeBytes : Nat
  chunksCount : Nat
deriving DecidableEq, Repr

structure SegmentWriter where
  segmentId : Nat
  bytesWritten : Nat
  isOpen : Bool
deriving DecidableEq, Repr

inductive StorageEvent
  | segmentStarted (segmentId : Nat)
  | segmentCompleted (segmentId : Nat)
deriving DecidableEq, Repr

structure StorageState where
  activeSegments : List (Nat × StoredSegment)
  segmentWriters : List (Nat × SegmentWriter)
  segmentsCreated : Nat
  segmentsCompleted : Nat
  events : List StorageEvent
deriving DecidableEq, Repr

def storageInit : StorageState := ⟨[], [], 0, 0, []⟩

/-- Dict lookup by device id. -/
def lookupDevice {α : Type} (l : List (Nat × α)) (d : Nat) : Option α :=
  (l.find? fun p => p.1 = d).map Prod.snd

/-- `_complete_segment`: close the writer, stamp the end time, and (in the
`finally` block) drop the device from both the active-segment and the
writer map. -/
def completeSegment (st : StorageState) (dev : Nat) (now : Int) :
    StorageState × Option StoredSegment :=
  match lookupDevice st.activeSegments dev with
  | none => (st, none)
  | some seg =>
      let seg' := { seg with endTime := some now, durationSeconds := now - seg.startTime }
      ({ st with
          activeSegments := st.activeSegments.filter fun p => p.1 ≠ dev,
          segmentWriters := st.segmentWriters.filter fun p => p.1 ≠ dev,
          segmentsCompleted := st.segmentsCompleted + 1,
          events := st.events ++ [.segmentCompleted seg'.segmentId] }, some seg')

/-- `start_device_segment`: complete any existing active segment for the
device first; then, if the new writer opens, register the fresh segment and
writer under the device id. -/
def startDeviceSegment (st : StorageState) (dev segId : Nat) (now : Int)
    (openOk : Bool) : StorageState × Option Nat :=
  let st1 := if (lookupDevice st.activeSegments dev).isSome then
      (completeSegment st dev now).1
    else st
  if openOk then
    let seg : StoredSegment := ⟨segId, dev, now, none, 0, 0, 0⟩
    ({ st1 with
        activeSegments := (dev, seg) :: st1.activeSegments,
        segmentWriters := (dev, ⟨segId, 0, true⟩) :: st1.segmentWriters,
        segmentsCreated := st1.segmentsCreated + 1,
        events := st1.events ++ [.segmentStarted segId] }, some segId)
  else (st1, none)

/-- The body of `write_audio_chunk` after the auto-start: look the active
segment and its writer up (a miss is the `KeyError` path, modelled as
`none`), append the chunk, update the segment's metadata, and rotate
(complete) the segment once its accumulated duration reaches the configured
threshold. -/
def writeChunkToActive (segmentDuration : Int) (st1 : StorageState) (dev : Nat)
    (chunkLen : Nat) (now : Int) : StorageState × Option Bool :=
  match lookupDevice st1.activeSegments dev, lookupDevice st1.segmentWriters dev with
  | some seg, some writer =>
      if writer.isOpen then
        let seg' := { seg with
            chunksCount := seg.chunksCount + 1,
            durationSeconds := now - seg.startTime,
            fileSizeBytes := seg.fileSizeBytes + chunkLen }
        let writer' := { writer with bytesWritten := writer.bytesWritten + chunkLen }
        let st2 := { st1 with
            activeSegments := st1.activeSegments.map fun p =>
              if p.1 = dev then (dev, seg') else p,
            segmentWriters := st1.segmentWriters.map fun p =>
              if p.1 = dev then (dev, writer') else p }
        if seg'.durationSeconds ≥ segmentDuration then
          ((completeSegment st2 dev now).1, some true)
        else (st2, some true)
      else (st1, some false)
  | _, _ => (st1, none)

/-- `write_audio_chunk`: auto-start a segment when none is active for the
device, then write the chunk to the active segment. -/
def writeAudioChunk (segmentDuration : Int) (st : StorageState) (dev : Nat)
    (chunkLen autoSegId : Nat) (now : Int) (openOk : Bool) :
    StorageState × Option Bool :=
  writeChunkToActive segmentDuration
    (if (lookupDevice st.activeSegments dev).isSome then st
     else (startDeviceSegment st dev autoSegId now openOk).1)
    dev chunkLen now

inductive StorageOp
  | start (dev segId : Nat) (now : Int) (openOk : Bool)
  | write (dev : Nat) (chunkLen autoSegId : Nat) (now : Int) (openOk : Bool)
  | complete (dev : Nat) (now : Int)
deriving DecidableEq, Repr

def applyStorageOp (segmentDuration : Int) (st : StorageState) : StorageOp → StorageState
  | .start dev segId now openOk => (startDeviceSegment st dev segId now openOk).1
  | .write dev chunkLen autoSegId now openOk =>
      (writeAudioChunk segmentDuration st dev chunkLen autoSegId now openOk).1
  | .complete dev now => (completeSegment st dev now).1

def applyStorageOps (segmentDuration : Int) (st : StorageState)
    (ops : List StorageOp) : StorageState :=
  ops.foldl (applyStorageOp segmentDuration) st

/-- The storage invariant: the active-segment map and the writer map are
keyed by exactly the same device ids, without duplicates — so each device
has at most one active segment, and a device's segment and its writer are
always removed together. -/
def StorageInv (st : StorageState) : Prop :=
  st.activeSegments.map Prod.fst = st.segmentWriters.map Prod.fst ∧
  (st.activeSegments.map Prod.fst).Nodup

lemma map_fst_filter_ne {α : Type} (l : List (Nat × α)) (d : Nat) :
    (l.filter fun p => p.1 ≠ d).map Prod.fst = (l.map Prod.fst).filter (fun k => k ≠ d) := by
  induction l with
  | nil => rfl
  | cons p t ih =>
      simp only [ne_eq, decide_not] at ih ⊢
      by_cases h : p.1 = d
      · simp [List.filter_cons, h, ih]
      · simp [List.filter_cons, h, ih]

lemma map_fst_update {α : Type} (l : List (Nat × α)) (d : Nat) (x : α) :
    ((l.map fun p => if p.1 = d then (d, x) else p).map Prod.fst) = l.map Prod.fst := by
  induction l with
  | nil => rfl
  | cons p t ih => by_cases h : p.1 = d <;> simp [h, ih]

lemma lookupDevice_eq_none {α : Type} (l : List (Nat × α)) (d : Nat) :
    lookupDevice l d = none ↔ d ∉ l.map Prod.fst := by
  unfold lookupDevice
  rw [Option.map_eq_none', List.find?_eq_none]
  simp only [decide_eq_true_eq, List.mem_map]
  constructor
  · rintro h ⟨p, hp, rfl⟩
    exact h p hp rfl
  · intro h p hp hpd
    exact h ⟨p, hp, hpd⟩

lemma completeSegment_inv (st : StorageState) (dev : Nat) (now : Int)
    (h : StorageInv st) : StorageInv (completeSegment st dev now).1 := by
  unfold completeSegment
  cases hl : lookupDevice st.activeSegments dev with
  | none => simpa using h
  | some seg =>
      obtain ⟨hkeys, hnodup⟩ := h
      exact ⟨by simp only [map_fst_filter_ne, hkeys], by
        simp only [map_fst_filter_ne]; exact hnodup.filter _⟩

lemma startDeviceSegment_state (st : StorageState) (dev segId : Nat) (now : Int)
    (openOk : Bool) (h : StorageInv st) :
    StorageInv (startDeviceSegment st dev segId now openOk).1 := by
  unfold startDeviceSegment
  have key : StorageInv (if (lookupDevice st.activeSegments dev).isSome then
        (completeSegment st dev now).1 else st) ∧
      dev ∉ (if (lookupDevice st.activeSegments dev).isSome then
        (completeSegment st dev now).1 else st).activeSegments.map Prod.fst := by
    cases hl : lookupDevice st.activeSegments dev with
    | none =>
        simp only [hl, Option.isSome_none, Bool.false_eq_true, if_false]
        exact ⟨h, (lookupDevice_eq_none _ _).mp hl⟩
    | some seg =>
        simp only [hl, Option.isSome_some, if_true]
        refine ⟨completeSegment_inv st dev now h, ?_⟩
        unfold completeSegment
        rw [hl]
        simp [map_fst_filter_ne, List.mem_filter]
  obtain ⟨⟨hkeys, hnodup⟩, hmem⟩ := key
  cases openOk with
  | false =>
      rw [if_neg (fun h => nomatch h)]
      exact ⟨hkeys, hnodup⟩
  | true =>
      rw [if_pos rfl]
      refine ⟨?_, ?_⟩
      · simp only [List.map_cons, hkeys]
      · simp only [List.map_cons]
        exact List.nodup_cons.mpr ⟨hmem, hnodup⟩

lemma writeChunkToActive_inv (sd : Int) (st1 : StorageState) (dev : Nat)
    (chunkLen : Nat) (now : Int) (h1 : StorageInv st1) :
    StorageInv (writeChunkToActive sd st1 dev chunkLen now).1 := by
  unfold writeChunkToActive
  cases hseg : lookupDevice st1.activeSegments dev with
  | none => exact h1
  | some seg =>
      cases hw : lookupDevice st1.segmentWriters dev with
      | none => exact h1
      | some writer =>
          dsimp only
          cases hopen : writer.isOpen with
          | false =>
              rw [if_neg (fun h => nomatch h)]
              exact h1
          | true =>
              rw [if_pos rfl]
              obtain ⟨hkeys, hnodup⟩ := h1
              have hinv2 : StorageInv
                  { st1 with
                      activeSegments := st1.activeSegments.map fun p =>
                        if p.1 = dev then (dev, { seg with
                          chunksCount := seg.chunksCount + 1,
                          durationSeconds := now - seg.startTime,
                          fileSizeBytes := seg.fileSizeBytes + chunkLen }) else p,
                      segmentWriters := st1.segmentWriters.map fun p =>
                        if p.1 = dev then
                          (dev, ⟨writer.segmentId, writer.bytesWritten + chunkLen, true⟩)
                        else p } := by
                refine ⟨?_, ?_⟩
                · simpa only [map_fst_update] using hkeys
                · simpa only [map_fst_update] using hnodup
              split
              · exact completeSegment_inv _ dev now hinv2
              · exact hinv2

lemma writeAudioChunk_inv (sd : Int) (st : StorageState) (dev : Nat)
    (chunkLen autoSegId : Nat) (now : Int) (openOk : Bool) (h : StorageInv st) :
    StorageInv (writeAudioChunk sd st dev chunkLen autoSegId now openOk).1 := by
  unfold writeAudioChunk
  apply writeChunkToActive_inv
  split
  · exact h
  · exact startDeviceSegment_state st dev autoSegId now openOk h

lemma applyStorageOps_inv (sd : Int) (ops : List StorageOp) (st : StorageState)
    (h : StorageInv st) : StorageInv (applyStorageOps sd st ops) := by
  induction ops generalizing st with
  | nil => exact h
  | cons op rest ih =>
      refine ih _ ?_
      cases op with
      | start dev segId now openOk => exact startDeviceSegment_state st dev segId now openOk h
      | write dev chunkLen autoSegId now openOk =>
          exact writeAudioChunk_inv sd st dev chunkLen autoSegId now openOk h
      | complete dev now => exact completeSegment_inv st dev now h

/-- Claim C7: across every sequence of storage operations the manager keeps
at most one active segment per device — the active-segment map and the
writer map always carry the same duplicate-free device keys, so every path
that removes a segment also removes its writer — and `start_device_segment`
finalizes an existing active segment (emitting its completion) before
registering the new one. -/
theorem storage_one_active_segment_per_device (sd : Int) (ops : List StorageOp) :
    StorageInv (applyStorageOps sd storageInit ops) ∧
    (∀ st dev segId now openOk oldSeg,
      lookupDevice st.activeSegments dev = some oldSeg →
      (startDeviceSegment st dev segId now openOk).1.events =
        st.events ++ StorageEvent.segmentCompleted oldSeg.segmentId ::
          (if openOk then [StorageEvent.segmentStarted segId] else [])) := by
  constructor
  · exact applyStorageOps_inv sd ops storageInit ⟨rfl, List.nodup_nil⟩
  · intro st dev segId now openOk oldSeg h
    unfold startDeviceSegment
    simp only [h, Option.isSome_some, if_true]
    unfold completeSegment
    rw [h]
    cases openOk <;> simp

/-- Concrete instantiation of C7: an op sequence that starts, writes (with
rotation) and completes segments for two devices keeps the invariant, and a
start over an already-active device emits the old segment's completion
before the new segment's start. -/
theorem storage_one_active_segment_per_device_witness :
    StorageInv (applyStorageOps 300 storageInit
      [.start 1 10 0 true, .write 1 4 11 100 true, .write 2 4 12 100 true,
       .start 1 13 150 true, .write 1 8 14 500 true, .complete 2 600]) ∧
    (startDeviceSegment
        ⟨[(1, ⟨10, 1, 0, none, 0, 0, 0⟩)], [(1, ⟨10, 0, true⟩)], 1, 0, []⟩
        1 99 50 true).1.events =
      [] ++ StorageEvent.segmentCompleted 10 ::
        (if true then [StorageEvent.segmentStarted 99] else []) :=
  ⟨(storage_one_active_segment_per_device 300
      [.start 1 10 0 true, .write 1 4 11 100 true, .write 2 4 12 100 true,
       .start 1 13 150 true, .write 1 8 14 500 true, .complete 2 600]).1,
   (storage_one_active_segment_per_device 300 []).2
      ⟨[(1, ⟨10, 1, 0, none, 0, 0, 0⟩)], [(1, ⟨10, 0, true⟩)], 1, 0, []⟩
      1 99 50 true ⟨10, 1, 0, none, 0, 0, 0⟩ (by decide)⟩

/-! ### Stored-segment listing, deletion and retention — `storage.py`,
`list_segments` / `delete_segment` / `cleanup_old_segments`

The on-disk population is a list of WAV files; each carries the midnight
timestamp of its date directory (`dirDay`, parsed from the `%Y-%m-%d`
directory name), the start time parsed from its filename, and its
device/segment id prefixes (opaque `Nat`s).  Walking the directory tree and
parsing filenames is flattened into this list; `deletable` records whether
`os.remove` succeeds on the file (a failure is caught and reported as
`False`).  `list_segments` filters whole *date directories* against the
date bounds, sorts the parsed segments newest-first (`reverse=True`), and
truncates to `limit` when the limit is non-zero (`if limit:`).
-/

structure WavFile where
  dirDay : Int
  startTime : Int
  deviceId : Nat
  segmentId : Nat
  deletable : Bool
deriving DecidableEq, Repr

/-- `list_segments(start_date, end_date, device_id, limit)`. -/
def listSegments (fs : List WavFile) (startDate endDate : Option Int)
    (deviceFilter : Option Nat) (limit : Nat) : List WavFile :=
  let kept := fs.filter fun f =>
    (match startDate with | some d => decide (d ≤ f.dirDay) | none => true) &&
    (match endDate with | some d => decide (f.dirDay ≤ d) | none => true) &&
    (match deviceFilter with | some dv => decide (f.deviceId = dv) | none => true)
  let sorted := kept.insertionSort fun a b => b.startTime ≤ a.startTime
  if limit = 0 then sorted else sorted.take limit

/-- `delete_segment`: re-list with the default limit of 100, find the first
segment with the given id, and remove its backing file; a missing segment or
a failed `os.remove` yields `False`. -/
def deleteSegment (fs : List WavFile) (segId : Nat) : List WavFile × Bool :=
  match (listSegments fs none none none 100).find? (fun f => f.segmentId = segId) with
  | none => (fs, false)
  | some f => if f.deletable then (fs.erase f, true) else (fs, false)

/-- `cleanup_old_segments`: list segments with `end_date = cutoff`
(`cutoff = now - days_to_keep`) and delete each, counting successes. -/
def cleanupStep (acc : List WavFile × Nat) (seg : WavFile) : List WavFile × Nat :=
  let r := deleteSegment acc.1 seg.segmentId
  (r.1, acc.2 + if r.2 then 1 else 0)

def cleanupOldSegments (fs : List WavFile) (cutoff : Int) : List WavFile × Nat :=
  (listSegments fs none (some cutoff) none 100).foldl cleanupStep (fs, 0)

lemma listSegments_end_perm (fs : List WavFile) (c : Int) (h : fs.length ≤ 100) :
    List.Perm (listSegments fs none (some c) none 100)
      (fs.filter (fun f => f.dirDay ≤ c)) := by
  unfold listSegments
  dsimp only
  rw [if_neg (by norm_num)]
  have hfeq : (fs.filter fun f => true && decide (f.dirDay ≤ c) && true) =
      fs.filter (fun f => f.dirDay ≤ c) := by simp
  rw [hfeq]
  have hperm := List.perm_insertionSort
    (fun a b : WavFile => b.startTime ≤ a.startTime)
    (fs.filter (fun f => f.dirDay ≤ c))
  rw [List.take_of_length_le (le_trans (le_of_eq hperm.length_eq)
    (le_trans (List.length_filter_le _ fs) h))]
  exact hperm

lemma listSegments_all_perm (fs : List WavFile) (h : fs.length ≤ 100) :
    List.Perm (listSegments fs none none none 100) fs := by
  unfold listSegments
  dsimp only
  rw [if_neg (by norm_num)]
  have hfeq : (fs.filter fun _ => (true : Bool) && true && true) = fs := by simp
  rw [hfeq]
  have hperm := List.perm_insertionSort
    (fun a b : WavFile => b.startTime ≤ a.startTime) fs
  rw [List.take_of_length_le (le_trans (le_of_eq hperm.length_eq) h)]
  exact hperm

lemma deleteSegment_found (fs : List WavFile) (f : WavFile) (hmem : f ∈ fs)
    (hlen : fs.length ≤ 100) (hids : (fs.map (·.segmentId)).Nodup) :
    deleteSegment fs f.segmentId =
      if f.deletable then (fs.erase f, true) else (fs, false) := by
  unfold deleteSegment
  have hperm := listSegments_all_perm fs hlen
  have hfind : (listSegments fs none none none 100).find?
      (fun g => g.segmentId = f.segmentId) = some f := by
    cases hf : (listSegments fs none none none 100).find?
        (fun g => g.segmentId = f.segmentId) with
    | none =>
        rw [List.find?_eq_none] at hf
        exact absurd (by simp : decide (f.segmentId = f.segmentId) = true)
          (hf f (hperm.mem_iff.mpr hmem))
    | some g =>
        have hg1 : g ∈ fs := hperm.mem_iff.mp (List.mem_of_find?_eq_some hf)
        have hg2 : g.segmentId = f.segmentId := by
          simpa using List.find?_some hf
        rw [List.inj_on_of_nodup_map hids hg1 hmem hg2]
  rw [hfind]

lemma cleanup_fold (os : List WavFile) : ∀ (cur : List WavFile) (n : Nat),
    cur.length ≤ 100 → (cur.map (·.segmentId)).Nodup →
    (∀ o ∈ os, o ∈ cur) → os.Nodup →
    os.foldl cleanupStep (cur, n) =
      (cur.filter (fun f => !(decide (f ∈ os) && f.deletable)),
       n + (os.filter (·.deletable)).length) := by
  induction os with
  | nil => intro cur n _ _ _ _; simp
  | cons o os ih =>
      intro cur n hlen hids hmem hnd
      have hcur : cur.Nodup := hids.of_map
      have homem : o ∈ cur := hmem o (by simp)
      have hone : o ∉ os := (List.nodup_cons.mp hnd).1
      rw [List.foldl_cons]
      cases hdel : o.deletable with
      | true =>
          have hstep : cleanupStep (cur, n) o = (cur.erase o, n + 1) := by
            unfold cleanupStep
            simp [deleteSegment_found cur o homem hlen hids, hdel]
          rw [hstep]
          rw [ih (cur.erase o) (n + 1)
            (le_trans (cur.erase_sublist o).length_le hlen)
            (hids.sublist ((cur.erase_sublist o).map _))
            (fun o' ho' => (hcur.mem_erase_iff).mpr
              ⟨fun he => hone (he ▸ ho'), hmem o' (by simp [ho'])⟩)
            (List.nodup_cons.mp hnd).2]
          rw [hcur.erase_eq_filter o, List.filter_filter]
          refine Prod.ext ?_ ?_
          · apply List.filter_congr
            intro f hf
            by_cases hfo : f = o
            · by_cases hfm : f ∈ os <;> simp [hfo, hfm, hdel]
            · by_cases hfm : f ∈ os <;> simp [hfo, hfm]
          · simp only [List.filter_cons, hdel, if_true, List.length_cons]
            omega
      | false =>
          have hstep : cleanupStep (cur, n) o = (cur, n) := by
            unfold cleanupStep
            simp [deleteSegment_found cur o homem hlen hids, hdel]
          rw [hstep]
          rw [ih cur n hlen hids (fun o' ho' => hmem o' (by simp [ho']))
            (List.nodup_cons.mp hnd).2]
          refine Prod.ext ?_ ?_
          · apply List.filter_congr
            intro f hf
            by_cases hfo : f = o
            · by_cases hfm : f ∈ os <;> simp [hfo, hfm, hdel]
            · by_cases hfm : f ∈ os <;> simp [hfo, hfm]
          · simp [List.filter_cons, hdel]

/-- Claim C4: cleanup does NOT delete every segment whose start time
precedes the cutoff — `list_segments` truncates to its default limit of
100, so for a population of 101 old deletable segments one old segment
survives cleanup. -/
def cleanupCounterexamplePopulation : List WavFile :=
  (List.range 101).map fun i =>
    ⟨0, ((100 - i : Nat) : Int), 0, 100 - i, true⟩

set_option maxRecDepth 40000 in
/-- Claim C4: with 101 stored segments that all start before the cutoff and
whose files all delete successfully, cleanup leaves one of them behind (the
oldest: the listing keeps only the newest 100). -/
theorem cleanup_counterexample :
    ¬ (∀ f ∈ cleanupCounterexamplePopulation, f.startTime < 1000 →
        f ∉ (cleanupOldSegments cleanupCounterexamplePopulation 1000).1) := by
  decide

/-- Claim C4 (amended): provided the stored population holds at most 100
segments (the listing's default limit) with distinct segment ids, cleanup
deletes every deletable segment located in a date directory at or before
the cutoff, keeps every other segment, and returns the number of segments
it deleted — a failure deleting one segment's file (an undeletable file)
does not prevent deletion of the remaining eligible segments.  Beyond 100
eligible segments the truncated listing leaves old segments behind, and
eligibility is decided by the date directory, not the per-file start
time. -/
theorem cleanup_amended (fs : List WavFile) (cutoff : Int)
    (hlen : fs.length ≤ 100) (hids : (fs.map (·.segmentId)).Nodup) :
    (∀ f ∈ fs, f.dirDay ≤ cutoff → f.deletable = true →
       f ∉ (cleanupOldSegments fs cutoff).1) ∧
    (∀ f ∈ fs, (¬ f.dirDay ≤ cutoff ∨ f.deletable = false) →
       f ∈ (cleanupOldSegments fs cutoff).1) ∧
    (cleanupOldSegments fs cutoff).2 =
      (fs.filter fun f => f.deletable && decide (f.dirDay ≤ cutoff)).length := by
  have hperm := listSegments_end_perm fs cutoff hlen
  have hfsnd : fs.Nodup := hids.of_map
  have hosnd : (listSegments fs none (some cutoff) none 100).Nodup :=
    hperm.nodup_iff.mpr (hfsnd.filter _)
  have hosmem : ∀ o ∈ listSegments fs none (some cutoff) none 100, o ∈ fs :=
    fun o ho => List.mem_of_mem_filter (hperm.mem_iff.mp ho)
  have hmemold : ∀ f, f ∈ listSegments fs none (some cutoff) none 100 ↔
      (f ∈ fs ∧ f.dirDay ≤ cutoff) := by
    intro f
    rw [hperm.mem_iff, List.mem_filter]
    simp
  unfold cleanupOldSegments
  rw [cleanup_fold (listSegments fs none (some cutoff) none 100) fs 0 hlen hids
    hosmem hosnd]
  refine ⟨?_, ?_, ?_⟩
  · intro f hf hdir hdel hcontra
    have := (List.mem_filter.mp hcontra).2
    rw [decide_eq_true ((hmemold f).mpr ⟨hf, hdir⟩), hdel] at this
    simp at this
  · intro f hf hcase
    refine List.mem_filter.mpr ⟨hf, ?_⟩
    rcases hcase with hdir | hdel
    · have : f ∉ listSegments fs none (some cutoff) none 100 :=
        fun hmem => hdir ((hmemold f).mp hmem).2
      simp [this]
    · simp [hdel]
  · have hpf := (hperm.filter (fun f => f.deletable)).length_eq
    simp only [List.filter_filter] at hpf
    simpa using hpf

/-- Concrete instantiation of the amended C4: of three stored segments, the
eligible deletable one is removed, the eligible one whose file deletion
fails survives, the one in a newer date directory survives, and the
returned count is 1. -/
theorem cleanup_amended_witness :
    ((⟨0, 3, 0, 1, true⟩ : WavFile) ∉
      (cleanupOldSegments
        [⟨0, 3, 0, 1, true⟩, ⟨0, 4, 0, 2, false⟩, ⟨10, 12, 0, 3, true⟩] 5).1) ∧
    ((⟨0, 4, 0, 2, false⟩ : WavFile) ∈
      (cleanupOldSegments
        [⟨0, 3, 0, 1, true⟩, ⟨0, 4, 0, 2, false⟩, ⟨10, 12, 0, 3, true⟩] 5).1) ∧
    ((⟨10, 12, 0, 3, true⟩ : WavFile) ∈
      (cleanupOldSegments
        [⟨0, 3, 0, 1, true⟩, ⟨0, 4, 0, 2, false⟩, ⟨10, 12, 0, 3, true⟩] 5).1) ∧
    (cleanupOldSegments
        [⟨0, 3, 0, 1, true⟩, ⟨0, 4, 0, 2, false⟩, ⟨10, 12, 0, 3, true⟩] 5).2 = 1 := by
  have h := cleanup_amended
    [⟨0, 3, 0, 1, true⟩, ⟨0, 4, 0, 2, false⟩, ⟨10, 12, 0, 3, true⟩] 5
    (by decide) (by decide)
  exact ⟨h.1 _ (by decide) (by decide) (by decide),
    h.2.1 _ (by decide) (Or.inr (by decide)),
    h.2.1 _ (by decide) (Or.inl (by decide)),
    by rw [h.2.2]; decide⟩

/-! ### Byte-level audio buffers — `compression.py`

A NumPy buffer is its shape, its dtype's item size in bytes, and the flat
list of sample words (raw bit patterns, one `Nat < 256^itemsize` per
sample).  `tobytes` serialises words little-endian; `frombuffer` +
`reshape` invert it, failing when the byte count is not a multiple of the
item size or does not match the shape — bit-exact round-tripping is
exactly preservation of these words.
-/

structure NpArray where
  shape : List Nat
  itemsize : Nat
  data : List Nat
deriving DecidableEq, Repr

def NpArray.nbytes (a : NpArray) : Nat := a.data.length * a.itemsize

/-- The buffer is well-typed: a positive item size, a data length matching
the shape, and every word within the dtype's width. -/
def wellFormed (a : NpArray) : Prop :=
  0 < a.itemsize ∧ a.data.length = a.shape.prod ∧ ∀ w ∈ a.data, w < 256 ^ a.itemsize

instance (a : NpArray) : Decidable (wellFormed a) := by
  unfold wellFormed
  infer_instance

/-- Little-endian bytes of one word at the given width. -/
def leBytes : Nat → Nat → List Nat
  | 0, _ => []
  | k + 1, w => (w % 256) :: leBytes k (w / 256)

/-- `ndarray.tobytes()`. -/
def toBytes (a : NpArray) : List Nat := a.data.flatMap (leBytes a.itemsize)

/-- Recombine little-endian bytes into a word. -/
def fromLe (bs : List Nat) : Nat := bs.foldr (fun b acc => b + 256 * acc) 0

/-- Group a byte stream into words of `k` bytes each (accumulator holds the
bytes of the current, still-incomplete word). -/
def groupBytesAux (k : Nat) : List Nat → List Nat → List Nat
  | [], _ => []
  | b :: rest, acc =>
      if acc.length + 1 = k then fromLe (acc ++ [b]) :: groupBytesAux k rest []
      else groupBytesAux k rest (acc ++ [b])

/-- `np.frombuffer(..., dtype).reshape(shape)`: fails when the byte count
is not a multiple of the item size or the element count does not match the
shape. -/
def fromBufferReshape (bytes : List Nat) (shape : List Nat) (itemsize : Nat) :
    Except String NpArray :=
  if itemsize = 0 then .error "frombuffer: zero itemsize"
  else if bytes.length % itemsize ≠ 0 then .error "frombuffer: partial item"
  else if (groupBytesAux itemsize bytes []).length ≠ shape.prod then .error "reshape"
  else .ok ⟨shape, itemsize, groupBytesAux itemsize bytes []⟩

lemma leBytes_length (k w : Nat) : (leBytes k w).length = k := by
  induction k generalizing w with
  | zero => rfl
  | succ k ih => simp [leBytes, ih]

lemma fromLe_leBytes (k w : Nat) (h : w < 256 ^ k) : fromLe (leBytes k w) = w := by
  induction k generalizing w with
  | zero => simp [leBytes, fromLe]; omega
  | succ k ih =>
      have hdiv : w / 256 < 256 ^ k := by
        rw [Nat.div_lt_iff_lt_mul (by norm_num)]
        calc w < 256 ^ (k + 1) := h
        _ = 256 ^ k * 256 := by ring
      simp only [leBytes, fromLe, List.foldr_cons]
      have := ih (w / 256) hdiv
      unfold fromLe at this
      rw [this]
      omega

lemma groupBytesAux_leBytes (k : Nat) (rest : List Nat) :
    ∀ (j w : Nat) (acc : List Nat), 0 < j → acc.length + j = k →
    groupBytesAux k (leBytes j w ++ rest) acc =
      fromLe (acc ++ leBytes j w) :: groupBytesAux k rest [] := by
  intro j
  induction j with
  | zero => intro w acc h1 _; omega
  | succ j ih =>
      intro w acc _ h2
      simp only [leBytes, List.cons_append, groupBytesAux]
      by_cases hj : j = 0
      · subst hj
        rw [if_pos (by omega)]
        simp [leBytes]
      · rw [if_neg (by omega)]
        simp only [List.append_eq]
        rw [ih (w / 256) (acc ++ [w % 256]) (by omega) (by simp; omega)]
        simp

lemma groupBytesAux_flatMap (k : Nat) (hk : 0 < k) (ws : List Nat)
    (hw : ∀ w ∈ ws, w < 256 ^ k) :
    groupBytesAux k (ws.flatMap (leBytes k)) [] = ws := by
  induction ws with
  | nil => rfl
  | cons w ws ih =>
      rw [List.flatMap_cons,
        groupBytesAux_leBytes k _ k w [] hk (by simp)]
      rw [List.nil_append, fromLe_leBytes k w (hw w (by simp)),
        ih (fun v hv => hw v (by simp [hv]))]

lemma fromBufferReshape_toBytes (a : NpArray) (h : wellFormed a) :
    fromBufferReshape (toBytes a) a.shape a.itemsize = .ok a := by
  obtain ⟨h1, h2, h3⟩ := h
  have hlen : (toBytes a).length = a.data.length * a.itemsize := by
    unfold toBytes
    induction a.data with
    | nil => simp
    | cons w ws ih => simp [List.flatMap_cons, leBytes_length, ih, Nat.succ_mul]; omega
  have hgroup : groupBytesAux a.itemsize (toBytes a) [] = a.data :=
    groupBytesAux_flatMap a.itemsize h1 a.data h3
  unfold fromBufferReshape
  rw [if_neg (by omega), if_neg (by rw [hlen]; simp [Nat.mul_mod_left]),
    if_neg (by rw [hgroup]; simp [h2])]
  rw [hgroup]

/-! ### Deflate-family codecs — `_compress_zlib` / `_compress_gzip`

Modelled from the spec: `zlib.compress`, `zlib.decompress`, `gzip.compress`
and `gzip.decompress` are external library calls whose contract is that the
codec is lossless (`decompress (compress b) == b` for every byte string);
the DEFLATE bit-stream itself is outside the repository.  They are modelled
as an executable lossless byte codec (a run-length code with byte-sized run
counts) behind the respective stream headers; the configured compression
level only tunes the external encoder and is carried unused. -/

def rleEncode : List Nat → List (Nat × Nat)
  | [] => []
  | b :: rest =>
      match rleEncode rest with
      | (b', c) :: tail =>
          if b = b' ∧ c < 255 then (b', c + 1) :: tail else (b, 1) :: (b', c) :: tail
      | [] => [(b, 1)]

def rleBytes (l : List Nat) : List Nat := (rleEncode l).flatMap fun p => [p.2, p.1]

def rleParse : List Nat → List Nat
  | c :: b :: rest => List.replicate c b ++ rleParse rest
  | _ => []

def zlibHeader : List Nat := [120, 156]
def gzipHeader : List Nat := [31, 139]

def zlibCompress (level : Nat) (l : List Nat) : List Nat := zlibHeader ++ rleBytes l

def zlibDecompress (l : List Nat) : Except String (List Nat) :=
  if l.take 2 = zlibHeader then .ok (rleParse (l.drop 2)) else .error "bad zlib stream"

def gzipCompress (level : Nat) (l : List Nat) : List Nat := gzipHeader ++ rleBytes l

def gzipDecompress (l : List Nat) : Except String (List Nat) :=
  if l.take 2 = gzipHeader then .ok (rleParse (l.drop 2)) else .error "bad gzip stream"

lemma rleEncode_replicate (l : List Nat) :
    (rleEncode l).flatMap (fun p => List.replicate p.2 p.1) = l := by
  induction l with
  | nil => rfl
  | cons b rest ih =>
      rw [rleEncode]
      cases h : rleEncode rest with
      | nil =>
          rw [h] at ih
          simp at ih
          simp [ih]
      | cons p tail =>
          obtain ⟨b', c⟩ := p
          rw [h] at ih
          dsimp only
          by_cases hb : b = b' ∧ c < 255
          · rw [if_pos hb]
            simp only [List.flatMap_cons] at ih ⊢
            rw [← ih, hb.1]
            simp [List.replicate_succ]
          · rw [if_neg hb]
            simp only [List.flatMap_cons] at ih ⊢
            rw [ih]
            simp

lemma rleParse_rleBytes (l : List Nat) : rleParse (rleBytes l) = l := by
  have haux : ∀ pairs : List (Nat × Nat),
      rleParse (pairs.flatMap fun p => [p.2, p.1]) =
        pairs.flatMap (fun p => List.replicate p.2 p.1) := by
    intro pairs
    induction pairs with
    | nil => rfl
    | cons p tail ih =>
        obtain ⟨b, c⟩ := p
        simp only [List.flatMap_cons, List.cons_append, List.nil_append, rleParse]
        show List.replicate c b ++ rleParse (tail.flatMap fun p => [p.2, p.1]) =
          List.replicate c b ++ tail.flatMap fun p => List.replicate p.2 p.1
        rw [ih]
  unfold rleBytes
  rw [haux, rleEncode_replicate]

lemma zlibDecompress_zlibCompress (level : Nat) (l : List Nat) :
    zlibDecompress (zlibCompress level l) = .ok l := by
  unfold zlibDecompress zlibCompress
  rw [if_pos (by rw [show (2 : Nat) = zlibHeader.length from rfl, List.take_left])]
  rw [show (2 : Nat) = zlibHeader.length from rfl, List.drop_left, rleParse_rleBytes]

lemma gzipDecompress_gzipCompress (level : Nat) (l : List Nat) :
    gzipDecompress (gzipCompress level l) = .ok l := by
  unfold gzipDecompress gzipCompress
  rw [if_pos (by rw [show (2 : Nat) = gzipHeader.length from rfl, List.take_left])]
  rw [show (2 : Nat) = gzipHeader.length from rfl, List.drop_left, rleParse_rleBytes]

/-! ### Compression engine — `compression.py`, `AudioCompressor`

`compress_audio` dispatches on the codec, measures sizes, computes the
quality score by immediately decompressing (a failure anywhere in that
comparison is caught and scored 0.5), and appends the metrics record to
`metrics_history`; an encoding failure propagates before anything is
appended.  `decompress_audio` stamps the decompression time onto the last
history entry when it succeeds (times are not modelled and recorded as 0).
The DCT and LPC coefficient computations and the float32 rescaling are
external float computations (scipy/numpy); their byte payloads are carried
opaquely and no claim examines them.
-/

inductive CompressionType
  | none | zlib | gzip | adpcm | dct | lpc
deriving DecidableEq, Repr

structure CompressionMetrics where
  original_size : Nat
  compressed_size : Nat
  compression_ratio : ℚ
  compression_time : ℚ
  decompression_time : ℚ
  quality_score : ℝ

/-- Two's-complement int16 view of a sample word. -/
def wordToInt16 (w : Nat) : Int :=
  if w % 65536 < 32768 then (w % 65536 : Int) else (w % 65536 : Int) - 65536

/-- Bit pattern of an int16 sample. -/
def int16ToWord (s : Int) : Nat := (s % 65536).toNat

/-- `_compress_adpcm` on a buffer: the int16 view of the samples is encoded.
For non-int16 dtypes the source first rescales through float32
(`(audio_data * 32767).astype(np.int16)`), an external float computation;
the claims only exercise that path on the empty buffer, where both
branches produce the empty stream. -/
def adpcmArrayBytes (a : NpArray) : List Nat :=
  compressAdpcmList (a.data.map wordToInt16)

/-- Stand-in for the pickled sparsified DCT coefficient vector
(`scipy.fft.dct` + percentile thresholding, an external float
computation); no claim examines these bytes. -/
def dctPlaceholderBytes (a : NpArray) : List Nat := toBytes a

/-- Stand-in for the pickled LPC coefficients/residual (external float
computation); no claim examines these bytes. -/
def lpcPlaceholderBytes (a : NpArray) : List Nat := toBytes a

/-- `COMPRESSION_LEVEL` config default. -/
def compressionLevel : Nat := 6

/-- The codec dispatch of `compress_audio`.  On a zero-length buffer the
DCT path raises (`scipy.fft.dct`/`np.percentile` reject empty input); the
LPC path falls back to the raw bytes when the order `min(10, len/4)` is
below 2. -/
def encodeAudio (a : NpArray) : CompressionType → Except String (List Nat)
  | .none => .ok (toBytes a)
  | .zlib => .ok (zlibCompress compressionLevel (toBytes a))
  | .gzip => .ok (gzipCompress compressionLevel (toBytes a))
  | .adpcm => .ok (adpcmArrayBytes a)
  | .dct =>
      if a.data.isEmpty then .error "dct: zero-length transform"
      else .ok (dctPlaceholderBytes a)
  | .lpc =>
      if min 10 (a.data.length / 4) < 2 then .ok (toBytes a)
      else .ok (lpcPlaceholderBytes a)

/-- The codec dispatch of `decompress_audio`.  The ADPCM branch decodes the
first `prod(shape)` nibbles and reshapes (raising when the element count
does not match); its float32 back-conversion and the DCT/LPC inverse
transforms are external float computations, modelled as the failure the
quality wrapper catches. -/
def decodeAudio (bytes : List Nat) (shape : List Nat) (itemsize : Nat) :
    CompressionType → Except String NpArray
  | .none => fromBufferReshape bytes shape itemsize
  | .zlib => (zlibDecompress bytes).bind fun b => fromBufferReshape b shape itemsize
  | .gzip => (gzipDecompress bytes).bind fun b => fromBufferReshape b shape itemsize
  | .adpcm =>
      if (decompressAdpcmList bytes shape.prod).length ≠ shape.prod then
        .error "reshape"
      else if itemsize = 2 then
        .ok ⟨shape, 2, (decompressAdpcmList bytes shape.prod).map fun p => int16ToWord p.1⟩
      else .error "adpcm: float32 rescale not modelled"
  | .dct => .error "dct: external idct not modelled"
  | .lpc => .error "lpc: external inverse filter not modelled"

noncomputable def meanList (xs : List ℝ) : ℝ := xs.sum / xs.length

noncomputable def signalPower (xs : List ℝ) : ℝ := meanList (xs.map fun x => x ^ 2)

noncomputable def noisePower (xs ys : List ℝ) : ℝ :=
  meanList ((xs.zip ys).map fun p => (p.1 - p.2) ^ 2)

/-- Numeric view of the samples for the SNR comparison (int16
interpretation; for other dtypes the numeric values differ but no claim
depends on them). -/
noncomputable def toReals (a : NpArray) : List ℝ := a.data.map fun w => ((wordToInt16 w : Int) : ℝ)

/-- `_calculate_quality_score`'s SNR-to-score mapping: signal power over
mean-squared reconstruction error as dB, with `snr = 100.0` when the error
is not positive (never a division by zero), clamped through
`min(1, max(0, (snr - 20) / 80))`. -/
noncomputable def calculateQualityScore (orig dec : List ℝ) : ℝ :=
  let snr : ℝ :=
    if 0 < noisePower orig dec then
      10 * Real.logb 10 (signalPower orig / noisePower orig dec)
    else 100
  min 1 (max 0 ((snr - 20) / 80))

/-- `self.metrics_history[-1].decompression_time = decompression_time` (the
elapsed time itself is not modelled and recorded as 0). -/
def setLastDecompressionTime : List CompressionMetrics → List CompressionMetrics
  | [] => []
  | [m] => [{ m with decompression_time := 0 }]
  | m :: rest => m :: setLastDecompressionTime rest

/-- `decompress_audio`: decode, and on success stamp the decompression time
onto the last history entry. -/
def decompressAudio (hist : List CompressionMetrics) (bytes : List Nat)
    (ct : CompressionType) (shape : List Nat) (itemsize : Nat) :
    Except String NpArray × List CompressionMetrics :=
  match decodeAudio bytes shape itemsize ct with
  | .ok a => (.ok a, setLastDecompressionTime hist)
  | .error e => (.error e, hist)

/-- `compress_audio`: encode (an encoding failure propagates with the
history untouched), build the metrics — ratio guarded against an empty
compressed payload, quality score from an immediate decompression with a
0.5 fallback when that comparison fails — and append them to the
history. -/
noncomputable def compressAudio (hist : List CompressionMetrics) (a : NpArray)
    (ct : CompressionType) :
    Except String (List Nat × CompressionMetrics) × List CompressionMetrics :=
  match encodeAudio a ct with
  | .error e => (.error e, hist)
  | .ok compressed =>
      let qr := decompressAudio hist compressed ct a.shape a.itemsize
      let qualityScore : ℝ :=
        match qr.1 with
        | .ok dec => calculateQualityScore (toReals a) (toReals dec)
        | .error _ => 0.5
      let m : CompressionMetrics :=
        ⟨a.nbytes, compressed.length,
         if compressed.length > 0 then (a.nbytes : ℚ) / compressed.length else 1,
         0, 0, qualityScore⟩
      (.ok (compressed, m), qr.2 ++ [m])

lemma decodeAudio_toBytes (a : NpArray) (h : wellFormed a) :
    decodeAudio (toBytes a) a.shape a.itemsize CompressionType.none = .ok a :=
  fromBufferReshape_toBytes a h

lemma decodeAudio_zlib (a : NpArray) (h : wellFormed a) :
    decodeAudio (zlibCompress compressionLevel (toBytes a)) a.shape a.itemsize
      CompressionType.zlib = .ok a := by
  show (zlibDecompress (zlibCompress compressionLevel (toBytes a))).bind
    (fun b => fromBufferReshape b a.shape a.itemsize) = .ok a
  rw [zlibDecompress_zlibCompress]
  exact fromBufferReshape_toBytes a h

lemma decodeAudio_gzip (a : NpArray) (h : wellFormed a) :
    decodeAudio (gzipCompress compressionLevel (toBytes a)) a.shape a.itemsize
      CompressionType.gzip = .ok a := by
  show (gzipDecompress (gzipCompress compressionLevel (toBytes a))).bind
    (fun b => fromBufferReshape b a.shape a.itemsize) = .ok a
  rw [gzipDecompress_gzipCompress]
  exact fromBufferReshape_toBytes a h

/-- Claim C2: for every well-formed buffer and each lossless codec (NONE,
ZLIB, GZIP), `compress_audio` succeeds and `decompress_audio` applied to
its output with the original shape and dtype returns the buffer
bit-identically. -/
theorem lossless_roundtrip (a : NpArray) (h : wellFormed a) (ct : CompressionType)
    (hct : ct = CompressionType.none ∨ ct = CompressionType.zlib ∨
      ct = CompressionType.gzip)
    (hist hist2 : List CompressionMetrics) :
    ∃ bytes m hist1,
      compressAudio hist a ct = (.ok (bytes, m), hist1) ∧
      (decompressAudio hist2 bytes ct a.shape a.itemsize).1 = .ok a := by
  rcases hct with rfl | rfl | rfl
  · refine ⟨toBytes a, _, _, rfl, ?_⟩
    unfold decompressAudio
    rw [decodeAudio_toBytes a h]
  · refine ⟨zlibCompress compressionLevel (toBytes a), _, _, rfl, ?_⟩
    unfold decompressAudio
    rw [decodeAudio_zlib a h]
  · refine ⟨gzipCompress compressionLevel (toBytes a), _, _, rfl, ?_⟩
    unfold decompressAudio
    rw [decodeAudio_gzip a h]

/-- Concrete instantiation of C2 on the two-sample int16 buffer [7, 300]
with the ZLIB codec. -/
theorem lossless_roundtrip_witness :
    ∃ bytes m hist1,
      compressAudio [] ⟨[2], 2, [7, 300]⟩ CompressionType.zlib =
        (.ok (bytes, m), hist1) ∧
      (decompressAudio [] bytes CompressionType.zlib [2] 2).1 =
        .ok ⟨[2], 2, [7, 300]⟩ :=
  lossless_roundtrip ⟨[2], 2, [7, 300]⟩ (by decide) CompressionType.zlib
    (Or.inr (Or.inl rfl)) [] []

lemma calculateQualityScore_bounds (orig dec : List ℝ) :
    0 ≤ calculateQualityScore orig dec ∧ calculateQualityScore orig dec ≤ 1 := by
  unfold calculateQualityScore
  exact ⟨le_min (by norm_num) (le_max_left _ _), min_le_left _ _⟩

lemma noisePower_self (xs : List ℝ) : noisePower xs xs = 0 := by
  have hzero : ((xs.zip xs).map fun p => (p.1 - p.2) ^ 2).sum = 0 := by
    induction xs with
    | nil => simp
    | cons x t ih => simp [ih, sub_self]
  unfold noisePower meanList
  rw [hzero, zero_div]

lemma calculateQualityScore_zero_noise (orig dec : List ℝ)
    (h : noisePower orig dec = 0) : calculateQualityScore orig dec = 1 := by
  unfold calculateQualityScore
  rw [h, if_neg (lt_irrefl 0)]
  norm_num

/-- Claim C5: every quality score recorded by `compress_audio` lies in
[0, 1] (the clamp covers the computed SNR branch, and the caught-failure
fallback is 0.5); a reconstruction error of exactly 0 takes the guarded
branch (`snr = 100`, no division by zero) and scores exactly 1.0; and a
lossless round-trip scores above 0.99. -/
theorem quality_score_clamped :
    (∀ hist (a : NpArray) ct bytes m hist',
      compressAudio hist a ct = (.ok (bytes, m), hist') →
      0 ≤ m.quality_score ∧ m.quality_score ≤ 1) ∧
    (∀ orig dec, noisePower orig dec = 0 → calculateQualityScore orig dec = 1) ∧
    (∀ hist (a : NpArray) ct, wellFormed a →
      (ct = CompressionType.none ∨ ct = CompressionType.zlib ∨
        ct = CompressionType.gzip) →
      ∃ bytes m hist1, compressAudio hist a ct = (.ok (bytes, m), hist1) ∧
        (0.99 : ℝ) < m.quality_score) := by
  refine ⟨?_, fun orig dec h => calculateQualityScore_zero_noise orig dec h, ?_⟩
  · intro hist a ct bytes m hist' heq
    unfold compressAudio at heq
    cases henc : encodeAudio a ct with
    | error e =>
        rw [henc] at heq
        simp at heq
    | ok compressed =>
        rw [henc] at heq
        simp only [Prod.mk.injEq, Except.ok.injEq] at heq
        obtain ⟨⟨-, hm⟩, -⟩ := heq
        rw [← hm]
        cases hq : (decompressAudio hist compressed ct a.shape a.itemsize).1 with
        | ok dec =>
            simp only [hq]
            exact calculateQualityScore_bounds _ _
        | error e =>
            simp only [hq]
            norm_num
  · intro hist a ct hwf hct
    have key : ∀ bytes : List Nat,
        decodeAudio bytes a.shape a.itemsize ct = .ok a →
        encodeAudio a ct = .ok bytes →
        ∃ bytes' m hist1, compressAudio hist a ct = (.ok (bytes', m), hist1) ∧
          (0.99 : ℝ) < m.quality_score := by
      intro bytes hdec henc
      have hq : (decompressAudio hist bytes ct a.shape a.itemsize).1 = .ok a := by
        unfold decompressAudio
        rw [hdec]
      unfold compressAudio
      rw [henc]
      refine ⟨bytes, _, _, rfl, ?_⟩
      simp only [hq]
      rw [calculateQualityScore_zero_noise _ _ (noisePower_self _)]
      norm_num
    rcases hct with rfl | rfl | rfl
    · exact key (toBytes a) (decodeAudio_toBytes a hwf) rfl
    · exact key (zlibCompress compressionLevel (toBytes a)) (decodeAudio_zlib a hwf) rfl
    · exact key (gzipCompress compressionLevel (toBytes a)) (decodeAudio_gzip a hwf) rfl

/-- Concrete instantiation of C5: a zero reconstruction error scores
exactly 1, and the ZLIB round-trip of the buffer [7] scores above 0.99. -/
theorem quality_score_clamped_witness :
    calculateQualityScore [(1 : ℝ)] [(1 : ℝ)] = 1 ∧
    (∃ bytes m hist1,
      compressAudio [] ⟨[1], 2, [7]⟩ CompressionType.zlib =
        (.ok (bytes, m), hist1) ∧ (0.99 : ℝ) < m.quality_score) :=
  ⟨quality_score_clamped.2.1 [(1 : ℝ)] [(1 : ℝ)] (noisePower_self [(1 : ℝ)]),
   quality_score_clamped.2.2 [] ⟨[1], 2, [7]⟩ CompressionType.zlib (by decide)
     (Or.inr (Or.inl rfl))⟩

/-- Claim C6: the DCT codec refutes "no codec raises on an empty buffer" —
`scipy.fft.dct`/`np.percentile` reject zero-length input, so
`compress_audio` of an empty buffer with the DCT codec raises. -/
theorem compress_empty_counterexample :
    ¬ (∀ ct, ∃ bytes m hist',
        compressAudio [] ⟨[0], 4, []⟩ ct = (.ok (bytes, m), hist') ∧
        m.original_size = 0) := by
  intro h
  obtain ⟨bytes, m, hist', heq, -⟩ := h CompressionType.dct
  have h1 : (compressAudio [] ⟨[0], 4, []⟩ CompressionType.dct).1 = .ok (bytes, m) := by
    rw [heq]
  rw [show (compressAudio [] ⟨[0], 4, []⟩ CompressionType.dct).1 =
    Except.error "dct: zero-length transform" from rfl] at h1
  exact Except.noConfusion h1

/-- Claim C6 (amended): for every supported codec except DCT, compressing
an empty (zero-sample) buffer succeeds and returns metrics whose
`original_size` is 0; the DCT codec raises on empty input. -/
theorem compress_empty_ok (hist : List CompressionMetrics) (shape : List Nat)
    (itemsize : Nat) (ct : CompressionType) (hct : ct ≠ CompressionType.dct) :
    ∃ bytes m hist', compressAudio hist ⟨shape, itemsize, []⟩ ct =
      (.ok (bytes, m), hist') ∧ m.original_size = 0 := by
  cases ct with
  | dct => exact absurd rfl hct
  | none => exact ⟨_, _, _, rfl, by simp [NpArray.nbytes]⟩
  | zlib => exact ⟨_, _, _, rfl, by simp [NpArray.nbytes]⟩
  | gzip => exact ⟨_, _, _, rfl, by simp [NpArray.nbytes]⟩
  | adpcm => exact ⟨_, _, _, rfl, by simp [NpArray.nbytes]⟩
  | lpc =>
      have henc : encodeAudio ⟨shape, itemsize, []⟩ CompressionType.lpc =
          .ok (toBytes ⟨shape, itemsize, []⟩) := by
        unfold encodeAudio
        dsimp only
        rw [if_pos (by simp)]
      unfold compressAudio
      rw [henc]
      exact ⟨_, _, _, rfl, by simp [NpArray.nbytes]⟩

/-- Concrete instantiation of the amended C6 with the ZLIB codec on an
empty float32-sized buffer. -/
theorem compress_empty_ok_witness :
    ∃ bytes m hist', compressAudio [] ⟨[0], 4, []⟩ CompressionType.zlib =
      (.ok (bytes, m), hist') ∧ m.original_size = 0 :=
  compress_empty_ok [] [0] 4 CompressionType.zlib (by decide)

/-- Claim C9: whenever `compress_audio` raises — its only raise points are
in the encoding dispatch, before any history mutation — the metrics
history is left exactly as it was: no entry is appended. -/
theorem compress_error_history_unchanged (hist : List CompressionMetrics)
    (a : NpArray) (ct : CompressionType) (e : String)
    (h : (compressAudio hist a ct).1 = .error e) :
    (compressAudio hist a ct).2 = hist := by
  unfold compressAudio at h ⊢
  cases henc : encodeAudio a ct with
  | error e' => rfl
  | ok compressed =>
      rw [henc] at h
      simp at h

/-- Concrete instantiation of C9: the failing DCT compression of an empty
buffer leaves a one-entry history untouched. -/
theorem compress_error_history_unchanged_witness :
    (compressAudio [⟨0, 0, 1, 0, 0, 0.5⟩] ⟨[0], 4, []⟩ CompressionType.dct).2 =
      [⟨0, 0, 1, 0, 0, 0.5⟩] :=
  compress_error_history_unchanged [⟨0, 0, 1, 0, 0, 0.5⟩] ⟨[0], 4, []⟩
    CompressionType.dct "dct: zero-length transform" rfl

end AudioReceiver
